import Mathlib

/-!
Verification development for the core storage subsystem of the
Sqlite-Storage-Manager repository: a shallow embedding of the B+ tree index
(`src/index/b_plus_tree.cpp`, `b_plus_tree_leaf_page.cpp`,
`b_plus_tree_internal_page.cpp`), the extendible hash table
(`src/hash/extendible_hash.cpp`), the lock manager
(`src/concurrency/lock_manager.cpp`), the buffer pool manager
(`buffer_pool_manager.cpp`) and the LRU replacer (`lru_replacer.cpp`),
together with theorems settling the spec claims about them.

Machine integers of the source (`page_id_t = int32`, keys compared through
`GenericComparator`) are modelled as `Int`; none of the verified scenarios
approaches 32-bit overflow.  Loops are modelled by structural recursion on an
explicit fuel argument so that every definition evaluates by kernel reduction.
-/

namespace StorageModel

/-- The source's `INVALID_PAGE_ID` constant (page ids are `int32_t`, invalid is -1). -/
def INVALID_PAGE_ID : Int := -1

/-!
Section: B+ tree pages

A leaf page (`b_plus_tree_leaf_page.cpp`): sorted `(key, RID)` slots, a
`next_page_id_` link, a parent pointer and a capacity `max_size`.  The dense
prefix `array[0, size)` of the on-page slot array is modelled as the list
`entries`, whose length is the page's `size` field.  RIDs are modelled as `Int`.
-/

structure LeafPage where
  pageId : Int
  parentId : Int
  nextPageId : Int
  maxSize : Nat
  entries : List (Int × Int)
deriving DecidableEq

/-- An internal page (`b_plus_tree_internal_page.cpp`): `(key, child page id)`
slots where slot 0's key is an unused placeholder. -/
structure InternalPage where
  pageId : Int
  parentId : Int
  maxSize : Nat
  entries : List (Int × Int)
deriving DecidableEq

inductive BPTPage where
  | leaf : LeafPage → BPTPage
  | internal : InternalPage → BPTPage
deriving DecidableEq

def BPTPage.parentId : BPTPage → Int
  | .leaf l => l.parentId
  | .internal ip => ip.parentId

def BPTPage.size : BPTPage → Nat
  | .leaf l => l.entries.length
  | .internal ip => ip.entries.length

def BPTPage.maxSize : BPTPage → Nat
  | .leaf l => l.maxSize
  | .internal ip => ip.maxSize

/-- The buffer pool's pages, as a page-id keyed association list. -/
abbrev PageMap := List (Int × BPTPage)

def getPage : PageMap → Int → Option BPTPage
  | [], _ => none
  | (i, p) :: rest, pid => if i = pid then some p else getPage rest pid

def setPage : PageMap → Int → BPTPage → PageMap
  | [], pid, p => [(pid, p)]
  | (i, q) :: rest, pid, p =>
    if i = pid then (i, p) :: rest else (i, q) :: setPage rest pid p

def delPage : PageMap → Int → PageMap
  | [], _ => []
  | (i, q) :: rest, pid => if i = pid then rest else (i, q) :: delPage rest pid

/-- Reads `array[i].first`; out-of-range reads (never taken on the paths the
source exercises) default to 0. -/
def keyAtD (entries : List (Int × Int)) (i : Int) : Int :=
  (entries.getD i.toNat (0, 0)).1

/-- The binary search of `BPlusTreeLeafPage::KeyIndex`: first index `i` with
`array[i].first >= key`.  The `le <= ri` loop is run on fuel; each iteration
strictly shrinks `ri - le`, so fuel `length + 1` always suffices. -/
def keyIndexAux (entries : List (Int × Int)) (key : Int) : Nat → Int → Int → Int
  | 0, _, ri => ri + 1
  | f + 1, le, ri =>
    if le ≤ ri then
      let mid := (ri - le) / 2 + le
      if keyAtD entries mid < key then keyIndexAux entries key f (mid + 1) ri
      else keyIndexAux entries key f le (mid - 1)
    else ri + 1

def leafKeyIndex (l : LeafPage) (key : Int) : Int :=
  keyIndexAux l.entries key (l.entries.length + 1) 0 ((l.entries.length : Int) - 1)

/-- `BPlusTreeLeafPage::Lookup`. -/
def leafLookup (l : LeafPage) (key : Int) : Option Int :=
  let idx := leafKeyIndex l key
  if idx < (l.entries.length : Int) ∧ keyAtD l.entries idx = key then
    some ((l.entries.getD idx.toNat (0, 0)).2)
  else none

/-- `BPlusTreeLeafPage::Insert`: insert at the sorted position `KeyIndex` returns. -/
def leafInsert (l : LeafPage) (key val : Int) : LeafPage :=
  let idx := (leafKeyIndex l key).toNat
  { l with entries := l.entries.take idx ++ (key, val) :: l.entries.drop idx }

/-- `BPlusTreeLeafPage::RemoveAndDeleteRecord`: no-op when the key is absent at
index `KeyIndex`, otherwise close the gap. -/
def leafRemoveRecord (l : LeafPage) (key : Int) : LeafPage :=
  let idx := leafKeyIndex l key
  if (l.entries.length : Int) ≤ idx ∨ ¬ key = keyAtD l.entries idx then l
  else { l with entries := l.entries.eraseIdx idx.toNat }

/-- `BPlusTreeLeafPage::MoveHalfTo` (with `CopyHalfFrom` inlined into the fresh
recipient): `total = max_size + 1`, `copy_idx = total / 2`, slots from
`copy_idx` onward move to the recipient, and the `next_page_id_` chain is
relinked through the recipient. -/
def leafMoveHalfTo (l r : LeafPage) : LeafPage × LeafPage :=
  let total := l.maxSize + 1
  let copyIdx := total / 2
  let moved := (l.entries.drop copyIdx).take (total - copyIdx)
  ({ l with entries := l.entries.take copyIdx, nextPageId := r.pageId },
   { r with entries := moved, nextPageId := l.nextPageId })

/-- The binary search of `BPlusTreeInternalPage::Lookup` on `[1, size)`;
returns the final `le` (the source then reads `array[le - 1].second`). -/
def internalLookupAux (entries : List (Int × Int)) (key : Int) : Nat → Int → Int → Int
  | 0, le, _ => le
  | f + 1, le, ri =>
    if le ≤ ri then
      let mid := (ri - le) / 2 + le
      if keyAtD entries mid ≤ key then internalLookupAux entries key f (mid + 1) ri
      else internalLookupAux entries key f le (mid - 1)
    else le

/-- `BPlusTreeInternalPage::Lookup`: child page id for `key`. -/
def internalLookup (ip : InternalPage) (key : Int) : Int :=
  let le := internalLookupAux ip.entries key (ip.entries.length + 1) 1
      ((ip.entries.length : Int) - 1)
  (ip.entries.getD (le - 1).toNat (0, INVALID_PAGE_ID)).2

def valueIndexFrom : List (Int × Int) → Int → Int → Int
  | [], _, _ => -1
  | e :: rest, v, i => if e.2 = v then i else valueIndexFrom rest v (i + 1)

/-- `BPlusTreeInternalPage::ValueIndex`: first slot whose value is `v`, else -1. -/
def valueIndex (ip : InternalPage) (v : Int) : Int :=
  valueIndexFrom ip.entries v 0

/-- `BPlusTreeInternalPage::InsertNodeAfter`. -/
def insertNodeAfter (ip : InternalPage) (oldV key newV : Int) : InternalPage :=
  let idx := (valueIndex ip oldV + 1).toNat
  { ip with entries := ip.entries.take idx ++ (key, newV) :: ip.entries.drop idx }

/-- `BPlusTreeInternalPage::SetKeyAt`, as a list update. -/
def setKeyAt (entries : List (Int × Int)) (i : Nat) (k : Int) : List (Int × Int) :=
  entries.set i (k, (entries.getD i (0, 0)).2)

/-!
Section: B+ tree (`b_plus_tree.cpp`)

The tree owns a root page id, the page store, the disk allocator's next fresh
page id (`DiskManager::AllocatePage` is monotonic) and the header-page record
of the root id written by `UpdateRootPageId`.  `maxSize` is the capacity every
`Init` call assigns (the source computes one global value from `PAGE_SIZE`;
the spec's seed scenarios use `order = 4`, i.e. `max_size = 4`).

Pin counts, page latches and the root latch serialize concurrent access and
have no effect on the sequential page contents; they are not modelled.
Transaction deleted-page sets only defer `DeletePage` to the end of the
operation, and the deleted page is never read again first, so the model
deletes pages at the point where the source registers them.
-/

structure BPTree where
  maxSize : Nat
  rootPageId : Int
  pages : PageMap
  nextNewPageId : Int
  headerRoot : Int
deriving DecidableEq

/-- A tree as freshly constructed: no root, empty pool, allocator at page 1
(page 0 is the reserved header page). -/
def emptyTree (maxSize : Nat) : BPTree :=
  { maxSize := maxSize, rootPageId := INVALID_PAGE_ID, pages := [],
    nextNewPageId := 1, headerRoot := INVALID_PAGE_ID }

/-- Rewrite a page's parent pointer (`BPlusTreePage::SetParentPageId`). -/
def setParent (m : PageMap) (pid newParent : Int) : PageMap :=
  match getPage m pid with
  | some (.leaf l) => setPage m pid (.leaf { l with parentId := newParent })
  | some (.internal ip) => setPage m pid (.internal { ip with parentId := newParent })
  | none => m

/-- Rewrite the parent pointer of each listed child (the `FetchPage` /
`SetParentPageId` / `UnpinPage` loop inside `CopyHalfFrom` and `CopyAllFrom`). -/
def reparentChildren (m : PageMap) (childIds : List Int) (newParent : Int) : PageMap :=
  childIds.foldl (fun mm cid => setParent mm cid newParent) m

/-- `BPlusTreeInternalPage::MoveHalfTo` into a fresh recipient: returns the
shrunk source, the filled recipient, and the moved children to reparent. -/
def internalMoveHalfTo (s d : InternalPage) : InternalPage × InternalPage × List Int :=
  let total := s.maxSize + 1
  let copyIdx := total / 2
  let moved := (s.entries.drop copyIdx).take (total - copyIdx)
  ({ s with entries := s.entries.take copyIdx },
   { d with entries := moved },
   moved.map (·.2))

/-- The descent loop of `BPlusTree::FindLeafPage` from page `pid`. -/
def findLeafFrom (m : PageMap) (key : Int) (leftMost : Bool) : Int → Nat → Option Int
  | _, 0 => none
  | pid, f + 1 =>
    match getPage m pid with
    | some (.leaf _) => some pid
    | some (.internal ip) =>
      let nxt := if leftMost then (ip.entries.getD 0 (0, INVALID_PAGE_ID)).2
                 else internalLookup ip key
      findLeafFrom m key leftMost nxt f
    | none => none

/-- `BPlusTree::FindLeafPage` for a point operation: `nullptr` on an empty
tree, otherwise descend from the root. -/
def findLeafId (t : BPTree) (key : Int) (fuel : Nat) : Option Int :=
  if t.rootPageId = INVALID_PAGE_ID then none
  else findLeafFrom t.pages key false t.rootPageId fuel

/-- `BPlusTree::GetValue`: point lookup through `FindLeafPage` and
`BPlusTreeLeafPage::Lookup` (the source's `bool` result is `isSome`). -/
def getValueM (t : BPTree) (key : Int) (fuel : Nat) : Option Int :=
  match findLeafId t key fuel with
  | none => none
  | some lid =>
    match getPage t.pages lid with
    | some (.leaf l) => leafLookup l key
    | _ => none

/-- `BPlusTree::StartNewTree`: allocate the root leaf, record the root id in
the header page, insert the first pair. -/
def startNewTree (t : BPTree) (key val : Int) : BPTree :=
  let pid := t.nextNewPageId
  let fresh : LeafPage :=
    { pageId := pid, parentId := INVALID_PAGE_ID, nextPageId := INVALID_PAGE_ID,
      maxSize := t.maxSize, entries := [] }
  let rootLeaf := leafInsert fresh key val
  { t with rootPageId := pid, headerRoot := pid,
           pages := setPage t.pages pid (.leaf rootLeaf), nextNewPageId := pid + 1 }

/-- `BPlusTree::InsertIntoParent`.  The root case allocates a new internal
root and populates it as `(_, left), (key, right)`; otherwise the parent takes
`InsertNodeAfter(left, key, right)` and recursively splits if it overflows.
The recursion climbs parent links, bounded by fuel. -/
def insertIntoParent (t : BPTree) (oldId : Int) (key : Int) (newId : Int) :
    Nat → Option BPTree
  | 0 => none
  | f + 1 =>
    match getPage t.pages oldId with
    | none => none
    | some oldP =>
      if oldP.parentId = INVALID_PAGE_ID then
        let rootId := t.nextNewPageId
        let newRoot : InternalPage :=
          { pageId := rootId, parentId := INVALID_PAGE_ID, maxSize := t.maxSize,
            entries := [(0, oldId), (key, newId)] }
        let m := setPage t.pages rootId (.internal newRoot)
        let m := setParent m oldId rootId
        let m := setParent m newId rootId
        some { t with rootPageId := rootId, headerRoot := rootId, pages := m,
                      nextNewPageId := rootId + 1 }
      else
        let parentId := oldP.parentId
        match getPage t.pages parentId with
        | some (.internal pp) =>
          let m := setParent t.pages newId parentId
          let pp1 := insertNodeAfter pp oldId key newId
          let m := setPage m parentId (.internal pp1)
          if pp1.entries.length > pp1.maxSize then
            let sId := t.nextNewPageId
            let fresh : InternalPage :=
              { pageId := sId, parentId := pp1.parentId, maxSize := t.maxSize,
                entries := [] }
            let sp := internalMoveHalfTo pp1 fresh
            let m := setPage m parentId (.internal sp.1)
            let m := setPage m sId (.internal sp.2.1)
            let m := reparentChildren m sp.2.2 sId
            insertIntoParent
              { t with pages := m, nextNewPageId := sId + 1 }
              parentId (sp.2.1.entries.headD (0, 0)).1 sId f
          else
            some { t with pages := m }
        | _ => none

/-- `BPlusTree::InsertIntoLeaf`: find the leaf, fail on a duplicate,
otherwise insert and split on overflow (`Split` + `InsertIntoParent` with the
new leaf's first key). -/
def insertIntoLeaf (t : BPTree) (key val : Int) (fuel : Nat) :
    Option (BPTree × Bool) :=
  match findLeafId t key fuel with
  | none => none
  | some lid =>
    match getPage t.pages lid with
    | some (.leaf l) =>
      match leafLookup l key with
      | some _ => some (t, false)
      | none =>
        let l1 := leafInsert l key val
        if l1.entries.length > l1.maxSize then
          let newId := t.nextNewPageId
          let fresh : LeafPage :=
            { pageId := newId, parentId := l1.parentId,
              nextPageId := INVALID_PAGE_ID, maxSize := t.maxSize, entries := [] }
          let lr := leafMoveHalfTo l1 fresh
          let m := setPage t.pages lid (.leaf lr.1)
          let m := setPage m newId (.leaf lr.2)
          match insertIntoParent
              { t with pages := m, nextNewPageId := newId + 1 }
              lid (lr.2.entries.headD (0, 0)).1 newId fuel with
          | none => none
          | some t2 => some (t2, true)
        else
          some ({ t with pages := setPage t.pages lid (.leaf l1) }, true)
    | _ => none

/-- `BPlusTree::Insert`: start a new tree when empty, else insert into a leaf. -/
def insertT (t : BPTree) (key val : Int) (fuel : Nat) : Option (BPTree × Bool) :=
  if t.rootPageId = INVALID_PAGE_ID then some (startNewTree t key val, true)
  else insertIntoLeaf t key val fuel

/-- Modelled from the spec: `BPlusTreePage::GetMinSize` lives in
`b_plus_tree_page.cpp`, which is not among the provided sources.  Section 3
gives the non-root occupancy bound and scenario S4 fixes the leaf value
(`min_size = 2` at `max_size = 4`, i.e. `max_size / 2`); section 4.4.1 and the
`AdjustRoot` cases fix the root values (a root leaf empties the tree at size
0, so its minimum is 1; an internal root must keep size >= 2). -/
def leafMinSize (l : LeafPage) : Nat :=
  if l.parentId = INVALID_PAGE_ID then 1 else l.maxSize / 2

/-- Modelled from the spec: the internal-page half of `GetMinSize` (see
`leafMinSize`); section 3 states `min_size = ceil((max_size+1)/2)` for
internal pages, and an internal root requires size >= 2. -/
def internalMinSize (ip : InternalPage) : Nat :=
  if ip.parentId = INVALID_PAGE_ID then 2 else (ip.maxSize + 2) / 2

def BPTPage.minSize : BPTPage → Nat
  | .leaf l => leafMinSize l
  | .internal ip => internalMinSize ip

/-- `BPlusTree::AdjustRoot`: a root leaf empties the tree; an internal root of
size 1 promotes its only child; returns whether the old root page is to be
deleted. -/
def adjustRoot (t : BPTree) (nodeId : Int) : Option (BPTree × Bool) :=
  match getPage t.pages nodeId with
  | some (.leaf _) =>
    some ({ t with rootPageId := INVALID_PAGE_ID, headerRoot := INVALID_PAGE_ID },
          true)
  | some (.internal ip) =>
    if ip.entries.length = 1 then
      let newRootId := (ip.entries.getD 0 (0, INVALID_PAGE_ID)).2
      let t1 := { t with rootPageId := newRootId, headerRoot := newRootId }
      some ({ t1 with pages := setParent t1.pages newRootId INVALID_PAGE_ID }, true)
    else some (t, false)
  | none => none

/-- `BPlusTreeLeafPage::MoveFirstToEndOf` (right sibling `sibId` feeds `nodeId`),
including the parent separator update, with the internal-page variant
(`BPlusTreeInternalPage::MoveFirstToEndOf`, which also reparents the moved
child). -/
def moveFirstToEndOf (t : BPTree) (sibId nodeId : Int) : Option BPTree :=
  match getPage t.pages sibId, getPage t.pages nodeId with
  | some (.leaf s), some (.leaf n) =>
    let first := s.entries.headD (0, 0)
    let s1 := { s with entries := s.entries.tail }
    let n1 := { n with entries := n.entries ++ [first] }
    let m := setPage (setPage t.pages sibId (.leaf s1)) nodeId (.leaf n1)
    match getPage m s.parentId with
    | some (.internal pp) =>
      let ki := valueIndex pp sibId
      let pp1 := { pp with entries := setKeyAt pp.entries ki.toNat (s1.entries.headD (0, 0)).1 }
      some { t with pages := setPage m s.parentId (.internal pp1) }
    | _ => none
  | some (.internal s), some (.internal n) =>
    let first := s.entries.headD (0, 0)
    let s1 := { s with entries := s.entries.tail }
    let n1 := { n with entries := n.entries ++ [first] }
    let m := setPage (setPage t.pages sibId (.internal s1)) nodeId (.internal n1)
    let m := setParent m first.2 nodeId
    match getPage m s.parentId with
    | some (.internal pp) =>
      let ki := valueIndex pp sibId
      let pp1 := { pp with entries := setKeyAt pp.entries ki.toNat (s1.entries.headD (0, 0)).1 }
      some { t with pages := setPage m s.parentId (.internal pp1) }
    | _ => none
  | _, _ => none

/-- `BPlusTreeLeafPage::MoveLastToFrontOf` (left sibling `sibId` feeds
`nodeId`; `parentIndex` is the node's slot in the parent), with the
internal-page variant. -/
def moveLastToFrontOf (t : BPTree) (sibId nodeId : Int) (parentIndex : Int) :
    Option BPTree :=
  match getPage t.pages sibId, getPage t.pages nodeId with
  | some (.leaf s), some (.leaf n) =>
    let last := s.entries.getLastD (0, 0)
    let s1 := { s with entries := s.entries.dropLast }
    let n1 := { n with entries := last :: n.entries }
    let m := setPage (setPage t.pages sibId (.leaf s1)) nodeId (.leaf n1)
    match getPage m n.parentId with
    | some (.internal pp) =>
      let pp1 := { pp with entries := setKeyAt pp.entries parentIndex.toNat last.1 }
      some { t with pages := setPage m n.parentId (.internal pp1) }
    | _ => none
  | some (.internal s), some (.internal n) =>
    let last := s.entries.getLastD (0, 0)
    let s1 := { s with entries := s.entries.dropLast }
    let n1 := { n with entries := last :: n.entries }
    let m := setPage (setPage t.pages sibId (.internal s1)) nodeId (.internal n1)
    let m := setParent m last.2 nodeId
    match getPage m n.parentId with
    | some (.internal pp) =>
      let pp1 := { pp with entries := setKeyAt pp.entries parentIndex.toNat last.1 }
      some { t with pages := setPage m n.parentId (.internal pp1) }
    | _ => none
  | _, _ => none

/-- `BPlusTree::Redistribute`: `index = 0` means the node is leftmost and its
right sibling gives its first pair; otherwise the left sibling gives its last
pair. -/
def redistributeOp (t : BPTree) (sibId nodeId : Int) (index : Int) : Option BPTree :=
  if index = 0 then moveFirstToEndOf t sibId nodeId
  else moveLastToFrontOf t sibId nodeId index

/-- `MoveAllTo` of the page being merged away (`srcId`, the right page) into
its left neighbour, dispatched on page kind.  The internal variant first
writes the parent's separator `KeyAt(indexInParent)` into its slot 0 and
reparents every moved child. -/
def moveAllTo (t : BPTree) (srcId dstId : Int) (indexInParent : Int) :
    Option BPTree :=
  match getPage t.pages srcId, getPage t.pages dstId with
  | some (.leaf s), some (.leaf d) =>
    let d1 := { d with entries := d.entries ++ s.entries, nextPageId := s.nextPageId }
    let m := setPage (setPage t.pages srcId (.leaf { s with entries := [] })) dstId (.leaf d1)
    some { t with pages := m }
  | some (.internal s), some (.internal d) =>
    match getPage t.pages s.parentId with
    | some (.internal pp) =>
      let k0 := (pp.entries.getD indexInParent.toNat (0, 0)).1
      let moved := setKeyAt s.entries 0 k0
      let d1 := { d with entries := d.entries ++ moved }
      let m := setPage (setPage t.pages srcId (.internal { s with entries := [] })) dstId (.internal d1)
      let m := reparentChildren m (moved.map (·.2)) dstId
      some { t with pages := m }
    | _ => none
  | _, _ => none

/-- `BPlusTree::CoalesceOrRedistribute` plus `FindSibling`, `Coalesce` and
`AdjustRoot`.  The root is adjusted; otherwise the left sibling (or the right
one for the leftmost node) either redistributes one pair, or absorbs the node
(right page into left page), removes the node's parent slot, and recurses on
an underfull parent (`size <= min_size` in `Coalesce`). -/
def coalesceOrRedistribute (t : BPTree) (nodeId : Int) : Nat → Option BPTree
  | 0 => none
  | f + 1 =>
    match getPage t.pages nodeId with
    | none => none
    | some node =>
      if node.parentId = INVALID_PAGE_ID then
        match adjustRoot t nodeId with
        | none => none
        | some (t1, delRoot) =>
          if delRoot then some { t1 with pages := delPage t1.pages nodeId }
          else some t1
      else
        match getPage t.pages node.parentId with
        | some (.internal pp) =>
          let idx := valueIndex pp nodeId
          let sibIdx := if idx > 0 then idx - 1 else idx + 1
          let sibId := (pp.entries.getD sibIdx.toNat (0, INVALID_PAGE_ID)).2
          match getPage t.pages sibId with
          | none => none
          | some sib =>
            if node.size + sib.size > node.maxSize then
              redistributeOp t sibId nodeId idx
            else
              let rightId := if idx = 0 then sibId else nodeId
              let leftId := if idx = 0 then nodeId else sibId
              let removeIdx := valueIndex pp rightId
              match moveAllTo t rightId leftId removeIdx with
              | none => none
              | some t1 =>
                let t2 := { t1 with pages := delPage t1.pages rightId }
                match getPage t2.pages node.parentId with
                | some (.internal pp2) =>
                  let pp3 := { pp2 with entries := pp2.entries.eraseIdx removeIdx.toNat }
                  let t3 := { t2 with pages := setPage t2.pages node.parentId (.internal pp3) }
                  if pp3.entries.length ≤ internalMinSize pp3 then
                    coalesceOrRedistribute t3 node.parentId f
                  else some t3
                | _ => none
        | _ => none

/-- `BPlusTree::Remove`: no-op on an empty tree; otherwise delete at the leaf
and coalesce or redistribute when the leaf falls under `min_size`. -/
def removeT (t : BPTree) (key : Int) (fuel : Nat) : Option BPTree :=
  if t.rootPageId = INVALID_PAGE_ID then some t
  else
    match findLeafId t key fuel with
    | none => none
    | some lid =>
      match getPage t.pages lid with
      | some (.leaf l) =>
        let l1 := leafRemoveRecord l key
        let t1 := { t with pages := setPage t.pages lid (.leaf l1) }
        if l1.entries.length < leafMinSize l1 then coalesceOrRedistribute t1 lid fuel
        else some t1
      | _ => none

/-- Keys read off the `next_page_id_` chain of leaves starting at `pid`
(the iterator's traversal order). -/
def leafChainKeys (m : PageMap) : Int → Nat → List Int
  | _, 0 => []
  | pid, f + 1 =>
    match getPage m pid with
    | some (.leaf l) =>
      l.entries.map (·.1) ++
        (if l.nextPageId = INVALID_PAGE_ID then [] else leafChainKeys m l.nextPageId f)
    | _ => []

/-- Insert the listed keys in order (each key paired with itself as its RID,
exactly as the `InsertFromFile` test harness does), requiring every insert to
return `true`. -/
def insertAll : BPTree → List Int → Option BPTree
  | t, [] => some t
  | t, k :: rest =>
    match insertT t k k 20 with
    | some (t1, true) => insertAll t1 rest
    | _ => none

/-- Scenario S1: keys 1..5 into an empty `order = 4` tree. -/
def s1TreeO : Option BPTree := insertAll (emptyTree 4) [1, 2, 3, 4, 5]

def s1T : BPTree := s1TreeO.getD (emptyTree 4)

/-- Scenario S3: S1's final tree, then `remove(1)`. -/
def s3TreeO : Option BPTree := s1TreeO.bind (fun t => removeT t 1 20)

def s3T : BPTree := s3TreeO.getD (emptyTree 4)

/-- The S1 shape check: the root is an internal page over exactly two leaves,
with separator key 3, left keys `[1, 2]` and right keys `[3, 4, 5]`. -/
def s1Shape (t : BPTree) : Bool :=
  match getPage t.pages t.rootPageId with
  | some (.internal ip) =>
    match ip.entries with
    | [(_, lId), (sep, rId)] =>
      decide (sep = 3) &&
        (match getPage t.pages lId, getPage t.pages rId with
         | some (.leaf ll), some (.leaf rl) =>
           decide (ll.entries.map (·.1) = [1, 2]) &&
             decide (rl.entries.map (·.1) = [3, 4, 5])
         | _, _ => false)
    | _ => false
  | _ => false

def rootIsLeaf (t : BPTree) : Bool :=
  match getPage t.pages t.rootPageId with
  | some (.leaf _) => true
  | _ => false

end StorageModel

namespace StorageClaims

open StorageModel

/-- C1: starting from an empty B+ tree with `max_size = 4`, inserting the keys
1, 2, 3, 4, 5 in order succeeds (every insert returns true), and after 5 is
inserted the root is an internal page with separator key 3 over a left leaf
holding exactly `{1, 2}` and a right leaf holding exactly `{3, 4, 5}`, with
`get(4)` returning true. -/
theorem insert_sorted_split_s1 :
    s1TreeO.isSome = true ∧ s1Shape s1T = true ∧ (getValueM s1T 4 20).isSome = true := by
  decide

/-- C3: from S1's final tree, `remove(1)` merges the two leaves: the leaf
chain read from the leftmost leaf yields exactly 2, 3, 4, 5, the leftmost
leaf is the root page itself, and the root is a leaf (height 1). -/
theorem delete_coalesce_s3 :
    s3TreeO.isSome = true ∧
      leafChainKeys s3T.pages s3T.rootPageId 20 = [2, 3, 4, 5] ∧
      findLeafFrom s3T.pages 0 true s3T.rootPageId 20 = some s3T.rootPageId ∧
      rootIsLeaf s3T = true := by
  decide

/-- A concrete overfull leaf as produced by inserting 5 ascending keys into an
`order = 4` leaf (size = `max_size + 1 = 5`). -/
def c2Leaf : LeafPage :=
  { pageId := 1, parentId := -1, nextPageId := -1, maxSize := 4,
    entries := [(1, 1), (2, 2), (3, 3), (4, 4), (5, 5)] }

/-- The fresh recipient page for `c2Leaf`'s split. -/
def c2Fresh : LeafPage :=
  { pageId := 2, parentId := -1, nextPageId := -1, maxSize := 4, entries := [] }

/-- C2, counterexample: with `max_size = 4` a split moves the slots from index
`(max_size + 1) / 2 = 2` onward — the new right page gets `{3, 4, 5}` — and
not from `ceil((max_size + 1) / 2) = 3` onward as the claim states. -/
theorem leaf_split_not_ceil :
    (leafMoveHalfTo c2Leaf c2Fresh).2.entries = [(3, 3), (4, 4), (5, 5)] ∧
      (leafMoveHalfTo c2Leaf c2Fresh).2.entries ≠
        c2Leaf.entries.drop ((c2Leaf.maxSize + 1 + 1) / 2) := by
  decide

/-- C2, amended: for every leaf whose size exceeds `max_size` by the one
freshly inserted pair (`size = max_size + 1`), the split moves exactly the
slots from index `floor((max_size + 1) / 2)` onward into the fresh right
page, links `next_leaf` from the old page to the new page and from the new
page to the old page's former successor, and the new page's first key — the
key `InsertIntoLeaf` then hands to `insert_into_parent` as the split key —
is the old page's key at that index. -/
theorem leaf_split_floor_half (l r : LeafPage)
    (hlen : l.entries.length = l.maxSize + 1) :
    (leafMoveHalfTo l r).1.entries = l.entries.take ((l.maxSize + 1) / 2) ∧
      (leafMoveHalfTo l r).2.entries = l.entries.drop ((l.maxSize + 1) / 2) ∧
      (leafMoveHalfTo l r).1.nextPageId = r.pageId ∧
      (leafMoveHalfTo l r).2.nextPageId = l.nextPageId ∧
      (leafMoveHalfTo l r).2.entries.head? = l.entries.get? ((l.maxSize + 1) / 2) := by
  have hdropLen : (l.entries.drop ((l.maxSize + 1) / 2)).length =
      l.maxSize + 1 - (l.maxSize + 1) / 2 := by
    rw [List.length_drop, hlen]
  have htake : (l.entries.drop ((l.maxSize + 1) / 2)).take
      (l.maxSize + 1 - (l.maxSize + 1) / 2) = l.entries.drop ((l.maxSize + 1) / 2) := by
    rw [← hdropLen, List.take_length]
  refine ⟨rfl, ?_, rfl, rfl, ?_⟩
  · simpa [leafMoveHalfTo] using htake
  · show ((l.entries.drop ((l.maxSize + 1) / 2)).take
        (l.maxSize + 1 - (l.maxSize + 1) / 2)).head? = _
    rw [htake, List.head?_drop, List.get?_eq_getElem?]

/-- Witness for `leaf_split_floor_half` at the concrete overfull leaf. -/
theorem leaf_split_floor_half_witness :
    (leafMoveHalfTo c2Leaf c2Fresh).1.entries = c2Leaf.entries.take 2 ∧
      (leafMoveHalfTo c2Leaf c2Fresh).2.entries = c2Leaf.entries.drop 2 ∧
      (leafMoveHalfTo c2Leaf c2Fresh).1.nextPageId = c2Fresh.pageId ∧
      (leafMoveHalfTo c2Leaf c2Fresh).2.nextPageId = c2Leaf.nextPageId ∧
      (leafMoveHalfTo c2Leaf c2Fresh).2.entries.head? = c2Leaf.entries.get? 2 :=
  leaf_split_floor_half c2Leaf c2Fresh (by decide)

/-- C4: for every tree state and key already present in it (present in the
sense the source tests it: `Lookup` succeeds on the leaf `FindLeafPage`
reaches, which is what `GetValue` returns), `Insert` returns false and the
whole tree state — every page, the root page id, the allocator, the header
record — is returned unchanged. -/
theorem insert_duplicate_noop (t : BPTree) (key v w : Int) (fuel : Nat)
    (h : getValueM t key fuel = some w) :
    insertT t key v fuel = some (t, false) := by
  cases hf : findLeafId t key fuel with
  | none => simp [getValueM, hf] at h
  | some lid =>
    cases hp : getPage t.pages lid with
    | none => simp [getValueM, hf, hp] at h
    | some pg =>
      cases pg with
      | internal ip => simp [getValueM, hf, hp] at h
      | leaf l =>
        have hlook : leafLookup l key = some w := by
          simpa [getValueM, hf, hp] using h
        have hroot : ¬ t.rootPageId = INVALID_PAGE_ID := by
          intro hr
          rw [findLeafId, if_pos hr] at hf
          cases hf
        simp [insertT, hroot, insertIntoLeaf, hf, hp, hlook]

/-- Witness for `insert_duplicate_noop`: a single-leaf tree containing key 2. -/
def c4Tree : BPTree :=
  { maxSize := 4, rootPageId := 1,
    pages := [(1, .leaf { pageId := 1, parentId := -1, nextPageId := -1,
                          maxSize := 4, entries := [(1, 1), (2, 2)] })],
    nextNewPageId := 2, headerRoot := 1 }

theorem insert_duplicate_noop_witness :
    insertT c4Tree 2 99 5 = some (c4Tree, false) :=
  insert_duplicate_noop c4Tree 2 99 2 5 (by decide)

/-- Writing back the page a key already maps to leaves the page table as it
was. -/
theorem setPage_self (m : PageMap) (pid : Int) (p : BPTPage)
    (h : getPage m pid = some p) : setPage m pid p = m := by
  induction m with
  | nil => simp [getPage] at h
  | cons e rest ih =>
    obtain ⟨i, q⟩ := e
    by_cases hi : i = pid
    · rw [getPage, if_pos hi] at h
      cases h
      rw [setPage, if_pos hi]
    · rw [getPage, if_neg hi] at h
      rw [setPage, if_neg hi, ih h]

/-- C5: for every tree state and key the tree does not hold (either the tree
is empty, or the leaf the descent reaches does not contain the key and — as
every reachable state guarantees — sits at or above its `min_size`),
`Remove` returns the tree completely unchanged: no page content changes, the
root page id stays, and no page is deallocated. -/
theorem remove_absent_noop (t : BPTree) (key : Int) (fuel : Nat)
    (h : t.rootPageId = INVALID_PAGE_ID ∨
      ∃ lid l, findLeafId t key fuel = some lid ∧
        getPage t.pages lid = some (.leaf l) ∧ leafLookup l key = none ∧
        leafMinSize l ≤ l.entries.length) :
    removeT t key fuel = some t := by
  rcases h with hroot | ⟨lid, l, hf, hp, hlook, hmin⟩
  · simp [removeT, hroot]
  · have hroot : ¬ t.rootPageId = INVALID_PAGE_ID := by
      intro hr
      rw [findLeafId, if_pos hr] at hf
      cases hf
    have hP : ¬ (leafKeyIndex l key < (l.entries.length : Int) ∧
        keyAtD l.entries (leafKeyIndex l key) = key) := by
      intro hP
      simp [leafLookup, hP] at hlook
    have hcond : (l.entries.length : Int) ≤ leafKeyIndex l key ∨
        ¬ key = keyAtD l.entries (leafKeyIndex l key) := by
      rcases not_and_or.mp hP with h1 | h2
      · exact Or.inl (not_lt.mp h1)
      · exact Or.inr (fun he => h2 he.symm)
    have hrem : leafRemoveRecord l key = l := by
      rw [leafRemoveRecord, if_pos hcond]
    have hset : setPage t.pages lid (.leaf l) = t.pages := setPage_self _ _ _ hp
    simp [removeT, hroot, hf, hp, hrem, hset, Nat.not_lt.mpr hmin]

/-- Witness for `remove_absent_noop`: removing absent key 7 from the
single-leaf tree. -/
theorem remove_absent_noop_witness : removeT c4Tree 7 5 = some c4Tree :=
  remove_absent_noop c4Tree 7 5
    (Or.inr ⟨1, { pageId := 1, parentId := -1, nextPageId := -1, maxSize := 4,
                  entries := [(1, 1), (2, 2)] },
      by decide, by decide, by decide, by decide⟩)

end StorageClaims

namespace StorageModel

/-!
Section: Extendible hash table (`extendible_hash.cpp`)

Buckets are fixed-capacity slot arrays of flagged entries.  The directory is a
list of bucket ids into a bucket store, so that several directory offsets can
alias one bucket exactly as the source's `shared_ptr` copies do.  `HashKey`
masks the key's hash with `(1 << globalDepth) - 1`; the hash function itself
(`std::hash`, the identity on machine integers in the source's standard
library) is a parameter.  The `while (full)` split loop runs on fuel.
-/

structure EHTEntry where
  flag : Bool
  key : Nat
  value : Nat
deriving DecidableEq

structure EHTBucket where
  localDepth : Nat
  size : Nat
  entries : List EHTEntry
deriving DecidableEq

structure EHTState where
  maxBucketSize : Nat
  globalDepth : Nat
  numBuckets : Nat
  buckets : List EHTBucket
  dir : List Nat
deriving DecidableEq

/-- The constructor: global depth 0, one empty bucket of local depth 0. -/
def ehtInit (sz : Nat) : EHTState :=
  { maxBucketSize := sz, globalDepth := 0, numBuckets := 1,
    buckets := [⟨0, 0, List.replicate sz ⟨false, 0, 0⟩⟩], dir := [0] }

/-- `ExtendibleHash::HashKey`. -/
def hashKey (hash : Nat → Nat) (gd : Nat) (k : Nat) : Nat :=
  hash k &&& (2 ^ gd - 1)

def dirBucketId (e : EHTState) (i : Nat) : Nat := e.dir.getD i 0

def bucketAt (e : EHTState) (bId : Nat) : EHTBucket := e.buckets.getD bId ⟨0, 0, []⟩

/-- The update scan at the top of `Insert`: overwrite the value of the first
occupied slot holding `k`, if any. -/
def entryUpdate : List EHTEntry → Nat → Nat → Option (List EHTEntry)
  | [], _, _ => none
  | en :: rest, k, v =>
    if en.flag = true ∧ en.key = k then some ({ en with value := v } :: rest)
    else (entryUpdate rest k v).map (en :: ·)

/-- The final loop of `Insert`: write `(k, v)` into the first empty slot. -/
def entryInsertFree : List EHTEntry → Nat → Nat → Option (List EHTEntry)
  | [], _, _ => none
  | en :: rest, k, v =>
    if en.flag = false then some (⟨true, k, v⟩ :: rest)
    else (entryInsertFree rest k v).map (en :: ·)

/-- The scan of `Remove`: clear the flag of the first occupied slot holding `k`. -/
def entryClear : List EHTEntry → Nat → Option (List EHTEntry)
  | [], _ => none
  | en :: rest, k =>
    if en.flag = true ∧ en.key = k then some ({ en with flag := false } :: rest)
    else (entryClear rest k).map (en :: ·)

/-- The redistribution loop of a bucket split: walk the overflowing bucket's
slots in order; every occupied entry whose rehashed index disagrees with
`indexSt0` on the new discriminating bit moves to the next free position of
the new bucket's slot array and is flagged empty in place.  Returns the old
bucket's slots, the new bucket's slots, and both sizes. -/
def redistGo (hash : Nat → Nat) (gd bit idxSt0 : Nat) :
    List EHTEntry → List EHTEntry → Nat → Nat →
      List EHTEntry × List EHTEntry × Nat × Nat
  | [], e1, s0, s1 => ([], e1, s0, s1)
  | en :: rest, e1, s0, s1 =>
    if en.flag = true ∧ ¬ (hashKey hash gd en.key &&& bit) = (idxSt0 &&& bit) then
      let r := redistGo hash gd bit idxSt0 rest (e1.set s1 ⟨true, en.key, en.value⟩)
        (s0 - 1) (s1 + 1)
      ({ en with flag := false } :: r.1, r.2)
    else
      let r := redistGo hash gd bit idxSt0 rest e1 s0 s1
      (en :: r.1, r.2)

/-- The `while (insertBucket full)` loop of `Insert`: double the directory
when `localDepth == globalDepth`, then split the bucket — allocating the
sibling, pointing the single directory offset `index ^ (1 << localDepth)` at
it, bumping both local depths, redistributing by the new bit — and rehash the
key.  Returns the state and index at which an insertion slot is to be sought. -/
def ehtInsertLoop (hash : Nat → Nat) : EHTState → Nat → Nat → Nat →
    Option (EHTState × Nat)
  | _, _, _, 0 => none
  | e, k, index, fuel + 1 =>
    let bId := dirBucketId e index
    let b := bucketAt e bId
    if b.size = e.maxBucketSize then
      let e1 := if b.localDepth = e.globalDepth
                then { e with dir := e.dir ++ e.dir, globalDepth := e.globalDepth + 1 }
                else e
      let idxSt1 := index ^^^ 2 ^ b.localDepth
      let newId := e1.buckets.length
      let ld := b.localDepth + 1
      let r := redistGo hash e1.globalDepth (2 ^ (ld - 1)) index b.entries
        (List.replicate e1.maxBucketSize ⟨false, 0, 0⟩) b.size 0
      let b0 : EHTBucket := ⟨ld, r.2.2.1, r.1⟩
      let b1 : EHTBucket := ⟨ld, r.2.2.2, r.2.1⟩
      let e2 := { e1 with buckets := (e1.buckets.set bId b0) ++ [b1],
                          dir := e1.dir.set idxSt1 newId,
                          numBuckets := e1.numBuckets + 1 }
      ehtInsertLoop hash e2 k (hashKey hash e2.globalDepth k) fuel
    else some (e, index)

/-- `ExtendibleHash::Insert`. -/
def ehtInsert (hash : Nat → Nat) (e : EHTState) (k v : Nat) (fuel : Nat) :
    Option EHTState :=
  let index := hashKey hash e.globalDepth k
  let bId := dirBucketId e index
  let b := bucketAt e bId
  match entryUpdate b.entries k v with
  | some ents =>
    some { e with buckets := e.buckets.set bId { b with entries := ents } }
  | none =>
    match ehtInsertLoop hash e k index fuel with
    | none => none
    | some (e1, index1) =>
      let bId1 := dirBucketId e1 index1
      let b1 := bucketAt e1 bId1
      match entryInsertFree b1.entries k v with
      | some ents =>
        some { e1 with buckets :=
          e1.buckets.set bId1 { b1 with size := b1.size + 1, entries := ents } }
      | none => some e1

/-- `ExtendibleHash::Remove`. -/
def ehtRemove (hash : Nat → Nat) (e : EHTState) (k : Nat) : EHTState × Bool :=
  let index := hashKey hash e.globalDepth k
  let bId := dirBucketId e index
  let b := bucketAt e bId
  match entryClear b.entries k with
  | some ents =>
    ({ e with buckets := e.buckets.set bId { b with size := b.size - 1, entries := ents } },
     true)
  | none => (e, false)

/-- `ExtendibleHash::Find`. -/
def ehtFind (hash : Nat → Nat) (e : EHTState) (k : Nat) : Option Nat :=
  let b := bucketAt e (dirBucketId e (hashKey hash e.globalDepth k))
  (b.entries.find? (fun en => en.flag && decide (en.key = k))).map (·.value)

/-- The claimed directory-bucket invariant: every directory offset points at a
bucket whose local depth is at most the global depth and all of whose
occupied keys agree with the offset on the low `localDepth` bits. -/
def ehtInvariant (hash : Nat → Nat) (e : EHTState) : Bool :=
  (List.range e.dir.length).all (fun i =>
    let b := bucketAt e (dirBucketId e i)
    decide (b.localDepth ≤ e.globalDepth) &&
      b.entries.all (fun en =>
        !en.flag ||
          decide ((hash en.key &&& (2 ^ b.localDepth - 1)) =
            (i &&& (2 ^ b.localDepth - 1)))))

/-- The insert sequence exhibiting the stale-alias split: bucket capacity 1,
identity hash, keys 0, 1, 3, 7, 4. -/
def c6Run : Option EHTState :=
  [0, 1, 3, 7, 4].foldl
    (fun oe k => oe.bind (fun e => ehtInsert (fun n => n) e k k 10))
    (some (ehtInit 1))

def c6State : EHTState := c6Run.getD (ehtInit 1)

end StorageModel

namespace StorageClaims2

open StorageModel

/-- C6: the claimed invariant fails on the code.  After inserting keys
0, 1, 3, 7, 4 (bucket capacity 1, identity hash) every bucket still satisfies
`local_depth <= global_depth`, but directory offset 2 points at a bucket of
local depth 3 holding key 4, and `4 & 7 = 4 ≠ 2 = 2 & 7`: the split pointed
only the single directory offset `index ^ (1 << local_depth)` at the new
bucket, leaving the stale alias at offset 2 on the old bucket.  The claimed
property is the standard extendible-hashing invariant the source's own
directory-doubling comment relies on, so this is a defect of `Insert`, not of
the claim. -/
theorem eht_invariant_violated :
    c6Run.isSome = true ∧
      ehtInvariant (fun n => n) c6State = false ∧
      c6State.globalDepth = 3 ∧
      (bucketAt c6State (dirBucketId c6State 2)).localDepth = 3 ∧
      (bucketAt c6State (dirBucketId c6State 2)).entries.any
        (fun en => en.flag && decide (en.key = 4)) = true ∧
      ¬ ((4 : Nat) &&& (2 ^ 3 - 1) = 2 &&& (2 ^ 3 - 1)) := by
  decide

end StorageClaims2

namespace StorageModel

/-!
Section: Lock manager (`lock_manager.cpp`)

The per-RID queue of `TxLockForRecord` requests with its `has_upgrated_` flag,
under a table keyed by RID (modelled as `Int`).  Blocking is modelled by a
`waiting` result: the request is appended ungranted and the suspended call's
continuation (`Wait()` returning, then the lock-set insertion) is a separate
step that fires only once the request has been granted.  Condition variables
and mutexes serialize the very steps modelled here and add no further state.
-/

inductive TxnState where
  | growing | shrinking | committed | aborted
deriving DecidableEq

inductive LMLock where
  | shared | exclusive | upgrading
deriving DecidableEq

structure TxLock where
  txnId : Int
  lockType : LMLock
  granted : Bool
deriving DecidableEq

structure TxList where
  locks : List TxLock
  hasUpgraded : Bool
deriving DecidableEq

structure TxnObj where
  id : Int
  state : TxnState
  sharedSet : List Int
  exclusiveSet : List Int
deriving DecidableEq

structure LMState where
  strict2PL : Bool
  lockTable : List (Int × TxList)
deriving DecidableEq

inductive LockResult where
  | granted | waiting | aborted
deriving DecidableEq

def lookupTL : List (Int × TxList) → Int → Option TxList
  | [], _ => none
  | (r, q) :: rest, rid => if r = rid then some q else lookupTL rest rid

def setTL : List (Int × TxList) → Int → TxList → List (Int × TxList)
  | [], rid, q => [(rid, q)]
  | (r, p) :: rest, rid, q =>
    if r = rid then (r, q) :: rest else (r, p) :: setTL rest rid q

def eraseTL : List (Int × TxList) → Int → List (Int × TxList)
  | [], _ => []
  | (r, p) :: rest, rid => if r = rid then rest else (r, p) :: eraseTL rest rid

def insertSet (s : List Int) (x : Int) : List Int := if x ∈ s then s else x :: s

/-- The queue `lock_table_[rid]` yields, default-constructed when absent. -/
def queueAt (lm : LMState) (rid : Int) : TxList :=
  (lookupTL lm.lockTable rid).getD ⟨[], false⟩

def tailLock (q : TxList) : TxLock := q.locks.getLastD ⟨0, .shared, false⟩

/-- `LockManager::LockShared`.  Immediate grant when the queue is empty or its
tail is a granted SHARED holder; otherwise wait-die against the tail. -/
def lockShared (lm : LMState) (txn : TxnObj) (rid : Int) :
    LMState × TxnObj × LockResult :=
  if ¬ txn.state = TxnState.growing then
    (lm, { txn with state := .aborted }, .aborted)
  else
    let q := queueAt lm rid
    let canGrant := q.locks.isEmpty ||
      ((tailLock q).granted && decide ((tailLock q).lockType = .shared))
    if canGrant = false ∧ txn.id > (tailLock q).txnId then
      (lm, { txn with state := .aborted }, .aborted)
    else
      let q1 := { q with locks := q.locks ++ [⟨txn.id, .shared, canGrant⟩] }
      let lm1 := { lm with lockTable := setTL lm.lockTable rid q1 }
      if canGrant then
        (lm1, { txn with sharedSet := insertSet txn.sharedSet rid }, .granted)
      else (lm1, txn, .waiting)

/-- `LockManager::LockExclusive`.  Immediate grant only on an empty queue. -/
def lockExclusive (lm : LMState) (txn : TxnObj) (rid : Int) :
    LMState × TxnObj × LockResult :=
  if ¬ txn.state = TxnState.growing then
    (lm, { txn with state := .aborted }, .aborted)
  else
    let q := queueAt lm rid
    let canGrant := q.locks.isEmpty
    if canGrant = false ∧ txn.id > (tailLock q).txnId then
      (lm, { txn with state := .aborted }, .aborted)
    else
      let q1 := { q with locks := q.locks ++ [⟨txn.id, .exclusive, canGrant⟩] }
      let lm1 := { lm with lockTable := setTL lm.lockTable rid q1 }
      if canGrant then
        (lm1, { txn with exclusiveSet := insertSet txn.exclusiveSet rid }, .granted)
      else (lm1, txn, .waiting)

/-- The return of a blocked `Lock{Exclusive,Upgrade}` call: `Wait()` comes back
once the request was granted, then the RID joins the exclusive lock set. -/
def completeExclusiveWait (lm : LMState) (txn : TxnObj) (rid : Int) :
    Option (TxnObj × Bool) :=
  match (queueAt lm rid).locks.find? (fun r => decide (r.txnId = txn.id)) with
  | some r =>
    if r.granted then
      some ({ txn with exclusiveSet := insertSet txn.exclusiveSet rid }, true)
    else none
  | none => none

/-- The grant loop at the tail of `LockManager::Unlock`: walk from the front,
stopping at the first already-granted request; grant ungranted SHARED
requests and keep walking; grant an ungranted UPGRADING request as EXCLUSIVE,
clear `has_upgrated_`, and stop; grant an ungranted EXCLUSIVE request and
stop. -/
def grantWalk : List TxLock → Bool → List TxLock × Bool
  | [], hu => ([], hu)
  | r :: rest, hu =>
    if r.granted then (r :: rest, hu)
    else
      match r.lockType with
      | .shared =>
        let w := grantWalk rest hu
        ({ r with granted := true } :: w.1, w.2)
      | .upgrading => ({ r with granted := true, lockType := .exclusive } :: rest, false)
      | .exclusive => ({ r with granted := true } :: rest, hu)

/-- `LockManager::Unlock`.  `none` models the undefined behaviour of erasing a
request the transaction never queued. -/
def unlock (lm : LMState) (txn : TxnObj) (rid : Int) :
    Option (LMState × TxnObj × Bool) :=
  if lm.strict2PL ∧ ¬ txn.state = TxnState.committed ∧ ¬ txn.state = TxnState.aborted then
    some (lm, { txn with state := .aborted }, false)
  else
    let txn1 := if ¬ lm.strict2PL ∧ txn.state = TxnState.growing
                then { txn with state := .shrinking } else txn
    let q := queueAt lm rid
    match q.locks.find? (fun r => decide (r.txnId = txn.id)) with
    | none => none
    | some req =>
      let txn2 := if req.lockType = .shared
                  then { txn1 with sharedSet := txn1.sharedSet.erase rid }
                  else { txn1 with exclusiveSet := txn1.exclusiveSet.erase rid }
      let locks1 := q.locks.eraseP (fun r => decide (r.txnId = txn.id))
      if locks1.isEmpty then
        some ({ lm with lockTable := eraseTL lm.lockTable rid }, txn2, true)
      else
        let w := grantWalk locks1 q.hasUpgraded
        some ({ lm with lockTable := setTL lm.lockTable rid ⟨w.1, w.2⟩ }, txn2, true)

/-- Scenario S6, step 1: T10 takes the exclusive lock on RID 100. -/
def c7r1 : LMState × TxnObj × LockResult :=
  lockExclusive ⟨false, []⟩ ⟨10, .growing, [], []⟩ 100

/-- S6, step 2: T5 requests exclusive; older than the tail T10, so it waits. -/
def c7r2 : LMState × TxnObj × LockResult :=
  lockExclusive c7r1.1 ⟨5, .growing, [], []⟩ 100

/-- S6, step 3: T20 requests exclusive; younger than the tail T5. -/
def c7r3 : LMState × TxnObj × LockResult :=
  lockExclusive c7r2.1 ⟨20, .growing, [], []⟩ 100

/-- S6, step 4: T10 unlocks (ordinary two-phase locking). -/
def c7r4 : Option (LMState × TxnObj × Bool) := unlock c7r3.1 c7r1.2.1 100

/-- S6, step 5: T5's blocked call returns. -/
def c7r5 : Option (TxnObj × Bool) :=
  c7r4.bind (fun x => completeExclusiveWait x.1 c7r2.2.1 100)

/-- Two granted SHARED holders (txn 1 then txn 2), then txn 0 queues an
exclusive request behind them (older than the tail, so it waits). -/
def c8r1 : LMState × TxnObj × LockResult :=
  lockShared ⟨false, []⟩ ⟨1, .growing, [], []⟩ 7

def c8r2 : LMState × TxnObj × LockResult :=
  lockShared c8r1.1 ⟨2, .growing, [], []⟩ 7

def c8r3 : LMState × TxnObj × LockResult :=
  lockExclusive c8r2.1 ⟨0, .growing, [], []⟩ 7

/-- Txn 1 unlocks: the remaining queue starts with the granted SHARED holder
txn 2, behind which txn 0 still waits. -/
def c8r4 : Option (LMState × TxnObj × Bool) := unlock c8r3.1 c8r1.2.1 7

def isWaitingShared (r : TxLock) : Bool :=
  !r.granted && decide (r.lockType = LMLock.shared)

def grantS (r : TxLock) : TxLock := { r with granted := true }

def promoteX (r : TxLock) : TxLock := { r with granted := true, lockType := .exclusive }

end StorageModel

namespace StorageClaims3

open StorageModel

/-- C7: the wait-die scenario S6.  T10 is granted the exclusive lock; T5
(older than the tail T10) waits; T20 (younger than the new tail T5) comes
back aborted with its state set to ABORTED and the lock manager untouched (no
request of T20 queued); T10's unlock succeeds, after which T5's blocked
request completes as granted; the final states are T5 GROWING and T20
ABORTED. -/
theorem lock_wait_die_s6 :
    c7r1.2.2 = LockResult.granted ∧
      c7r2.2.2 = LockResult.waiting ∧
      c7r3.2.2 = LockResult.aborted ∧
      c7r3.2.1.state = TxnState.aborted ∧
      c7r3.1 = c7r2.1 ∧
      (c7r4.map (·.2.2)).getD false = true ∧
      (c7r5.map (·.2)).getD false = true ∧
      (c7r5.map (fun y => decide (y.1.state = TxnState.growing))).getD false = true := by
  decide

/-- C8, counterexample: txns 1 and 2 hold granted SHARED locks on RID 7 and
txn 0 waits for EXCLUSIVE behind them.  When txn 1 unlocks, the queue is
`[granted SHARED (txn 2), ungranted EXCLUSIVE (txn 0)]` and the walk stops at
the granted front entry: txn 0 — the first ungranted waiter — is NOT granted,
contrary to the claim that granted entries are skipped and the first
ungranted waiter is granted. -/
theorem unlock_walk_stops_at_granted :
    c8r3.2.2 = LockResult.waiting ∧
      c8r4 = some (⟨false, [(7, ⟨[⟨2, .shared, true⟩, ⟨0, .exclusive, false⟩], false⟩)]⟩,
                   ⟨1, .shrinking, [], []⟩, true) ∧
      (c8r4.map (fun x => (queueAt x.1 7).locks.any (fun r => !r.granted))).getD false
        = true := by
  decide

/-- C8, amended: the walk does not skip granted entries — it stops at the
first one.  Precisely, the walk grants the maximal leading run of ungranted
SHARED requests and then: stops at a granted request (so if the queue front
is granted, nothing at all is granted); or grants the next ungranted request,
promoting an UPGRADING request to EXCLUSIVE and clearing `has_upgraded`;
everything beyond that point is untouched. -/
theorem grantWalk_stops_at_granted (q : List TxLock) (hu : Bool) :
    grantWalk q hu =
      ((q.takeWhile isWaitingShared).map grantS ++
        (match q.dropWhile isWaitingShared with
         | [] => []
         | r :: rest =>
           (if r.granted then r
            else if r.lockType = LMLock.upgrading then promoteX r else grantS r) :: rest),
       match q.dropWhile isWaitingShared with
       | [] => hu
       | r :: _ => if r.granted = false ∧ r.lockType = LMLock.upgrading then false else hu) := by
  induction q with
  | nil => rfl
  | cons r q ih =>
    cases hg : r.granted with
    | true =>
      simp [grantWalk, hg, isWaitingShared, List.takeWhile_cons, List.dropWhile_cons]
    | false =>
      cases ht : r.lockType with
      | shared =>
        simp [grantWalk, hg, ht, isWaitingShared, List.takeWhile_cons,
          List.dropWhile_cons, ih, grantS]
      | upgrading =>
        simp [grantWalk, hg, ht, isWaitingShared, List.takeWhile_cons,
          List.dropWhile_cons, promoteX]
      | exclusive =>
        simp [grantWalk, hg, ht, isWaitingShared, List.takeWhile_cons,
          List.dropWhile_cons, grantS]

end StorageClaims3

namespace StorageModel

/-!
Section: LRU replacer (`lru_replacer.cpp`)

The replacer's doubly linked list `used` (front = most recently inserted)
together with the position map `mp`; since `mp` holds exactly the elements of
`used`, the state is the list alone and `Size()` is its length.
-/

/-- `LRUReplacer::Insert`: erase the present copy, then push to the front. -/
def lruInsert (v : Int) (l : List Int) : List Int :=
  if v ∈ l then v :: l.erase v else v :: l

/-- `LRUReplacer::Victim`: pop the back, if any. -/
def lruVictim (l : List Int) : Option (Int × List Int) :=
  match l.getLast? with
  | none => none
  | some v => some (v, l.dropLast)

/-- `LRUReplacer::Size`. -/
def lruSize (l : List Int) : Nat := l.length

def lruDrainAux : Nat → List Int → List Int
  | 0, _ => []
  | f + 1, l =>
    match lruVictim l with
    | none => []
    | some (v, rest) => v :: lruDrainAux f rest

/-- The values `Victim` returns, in order, until the replacer is empty. -/
def lruDrain (l : List Int) : List Int := lruDrainAux l.length l

theorem lruDrainAux_eq_reverse (f : Nat) (l : List Int) (h : l.length ≤ f) :
    lruDrainAux f l = l.reverse := by
  induction f generalizing l with
  | zero =>
    have hl : l = [] := List.eq_nil_of_length_eq_zero (Nat.le_zero.mp h)
    simp [hl, lruDrainAux]
  | succ f ih =>
    by_cases hl : l = []
    · simp [hl, lruDrainAux, lruVictim]
    · have hlen : l.dropLast.length ≤ f := by
        rw [List.length_dropLast]
        have := List.length_pos.mpr hl
        omega
      rw [lruDrainAux, lruVictim, List.getLast?_eq_getLast l hl]
      show l.getLast hl :: lruDrainAux f l.dropLast = l.reverse
      rw [ih l.dropLast hlen]
      conv_rhs => rw [← List.dropLast_append_getLast hl]
      rw [List.reverse_append]
      rfl

/-- Repeatedly popping the tail returns the list reversed. -/
theorem lruDrain_eq_reverse (l : List Int) : lruDrain l = l.reverse :=
  lruDrainAux_eq_reverse l.length l le_rfl

/-!
Section: Buffer pool manager (`buffer_pool_manager.cpp`)

Only the state `DeletePage` touches is modelled: the frame array's metadata,
the page table, the replacer, the free list, and a log of calls made to the
disk collaborator.
-/

inductive DiskOp where
  | allocate (pid : Int)
  | deallocate (pid : Int)
  | writePage (pid : Int)
  | readPage (pid : Int)
deriving DecidableEq

structure Frame where
  pageId : Int
  pinCount : Nat
  dirty : Bool
  memZeroed : Bool
deriving DecidableEq

structure BPM where
  frames : List Frame
  pageTable : List (Int × Nat)
  freeList : List Nat
  lru : List Nat
  diskOps : List DiskOp
deriving DecidableEq

def lookupPT : List (Int × Nat) → Int → Option Nat
  | [], _ => none
  | (i, f) :: rest, pid => if i = pid then some f else lookupPT rest pid

def erasePT : List (Int × Nat) → Int → List (Int × Nat)
  | [], _ => []
  | (i, f) :: rest, pid => if i = pid then rest else (i, f) :: erasePT rest pid

/-- `BufferPoolManager::DeletePage`: when the page is resident, refuse if
pinned, else drop its table entry and replacer entry, reset the frame and
free it; in every non-pinned case tell the disk to deallocate and return
true. -/
def bpmDeletePage (b : BPM) (pid : Int) : BPM × Bool :=
  match lookupPT b.pageTable pid with
  | some f =>
    let fr := b.frames.getD f ⟨-1, 0, false, false⟩
    if fr.pinCount > 0 then (b, false)
    else
      ({ b with pageTable := erasePT b.pageTable pid,
                lru := b.lru.erase f,
                frames := b.frames.set f { fr with pageId := -1, dirty := false,
                                                   memZeroed := true },
                freeList := b.freeList ++ [f],
                diskOps := b.diskOps ++ [.deallocate pid] }, true)
  | none => ({ b with diskOps := b.diskOps ++ [.deallocate pid] }, true)

end StorageModel

namespace StorageClaims4

open StorageModel

/-- C9: deleting a page that is not resident (no page-table entry) returns
true, leaves every frame, the page table, the free list and the LRU state
untouched, and still calls the disk collaborator's `DeallocatePage`. -/
theorem deletePage_not_resident (b : BPM) (pid : Int)
    (h : lookupPT b.pageTable pid = none) :
    bpmDeletePage b pid = ({ b with diskOps := b.diskOps ++ [.deallocate pid] }, true) := by
  simp [bpmDeletePage, h]

/-- Witness for `deletePage_not_resident`: a one-frame pool holding page 5,
asked to delete page 9. -/
def c9Pool : BPM :=
  { frames := [⟨5, 1, false, false⟩], pageTable := [(5, 0)], freeList := [],
    lru := [], diskOps := [] }

theorem deletePage_not_resident_witness :
    bpmDeletePage c9Pool 9 = ({ c9Pool with diskOps := [.deallocate 9] }, true) :=
  deletePage_not_resident c9Pool 9 (by decide)

/-- C10: inserting a value already present in the replacer does not duplicate
it — the value moves to the front, `Size()` is unchanged, and inserting twice
in a row equals inserting once; and since present values stay unduplicated,
draining `Victim` until empty returns every present value exactly once. -/
theorem lruInsert_present (l : List Int) (v : Int) (hd : l.Nodup) (hv : v ∈ l) :
    (lruInsert v l).head? = some v ∧
      lruSize (lruInsert v l) = lruSize l ∧
      lruInsert v (lruInsert v l) = lruInsert v l ∧
      (lruInsert v l).Nodup ∧
      ∀ x ∈ lruInsert v l, (lruDrain (lruInsert v l)).count x = 1 := by
  have hins : lruInsert v l = v :: l.erase v := by rw [lruInsert, if_pos hv]
  have hnodup : (lruInsert v l).Nodup := by
    rw [hins]
    refine List.nodup_cons.mpr ⟨?_, hd.erase v⟩
    intro hmem
    exact ((hd.mem_erase_iff).mp hmem).1 rfl
  refine ⟨by rw [hins]; rfl, ?_, ?_, hnodup, ?_⟩
  · have h1 : (l.erase v).length = l.length - 1 := List.length_erase_of_mem hv
    have h2 : 1 ≤ l.length := List.length_pos.mpr (List.ne_nil_of_mem hv)
    rw [lruSize, lruSize, hins]
    simp only [List.length_cons, h1]
    omega
  · rw [hins, lruInsert, if_pos (List.mem_cons_self v (l.erase v)), List.erase_cons_head]
  · intro x hx
    have hdrain : lruDrain (lruInsert v l) = (lruInsert v l).reverse := by
      exact lruDrain_eq_reverse (lruInsert v l)
    rw [hdrain, List.count_reverse]
    exact List.count_eq_one_of_mem hnodup hx

/-- Witness for `lruInsert_present`: reinserting 4 into the replacer holding
3, 4, 5. -/
theorem lruInsert_present_witness :
    (lruInsert 4 [3, 4, 5]).head? = some 4 ∧
      lruSize (lruInsert 4 [3, 4, 5]) = lruSize [3, 4, 5] ∧
      lruInsert 4 (lruInsert 4 [3, 4, 5]) = lruInsert 4 [3, 4, 5] ∧
      (lruInsert 4 [3, 4, 5]).Nodup ∧
      ∀ x ∈ lruInsert 4 [3, 4, 5], (lruDrain (lruInsert 4 [3, 4, 5])).count x = 1 :=
  lruInsert_present [3, 4, 5] 4 (by decide) (by decide)

end StorageClaims4
